import Mathlib

/-!
Verification development for the `rust-text-adventure` client
(`src/main.rs`).  The client's protocol layer is embedded shallowly:

* `ClientGameState`, `GameScreenDto` and the three `SubmitCommand*Dto`
  response shapes mirror the Rust structs;
* the state codec (`to_state_string` / `from_state_string`) wraps a
  URI-safe dictionary compressor modelled from the design document,
  since the actual compressor lives in the external `lz_str` crate and
  the JSON layer in `serde_json`, neither of which is part of this
  repository's sources;
* response classification mirrors serde's `#[serde(untagged)]`
  deserialisation of `SubmitCommandResponse` (try each variant in
  declaration order, ignoring unknown fields);
* `applyResponse` and `step` mirror the body of `main`'s REPL loop.

Rust panics (`unwrap`, `expect`, the `panic!` branch in
`to_state_string`) are modelled as `none` / `StepResult.panicked`:
a `none` result of a function that mirrors panicking Rust code means
the process aborts at that point.
-/

namespace TextAdventure

/-! ### Generic list and bit utilities -/

/-- First index of `a` in `l`, if present. -/
def idxOf {α : Type} [DecidableEq α] : List α → α → Option Nat
  | [], _ => none
  | b :: bs, a => if b = a then some 0 else (idxOf bs a).map (· + 1)

theorem idxOf_some {α : Type} [DecidableEq α] {l : List α} {a : α} {i : Nat}
    (d : α) (h : idxOf l a = some i) : i < l.length ∧ l.getD i d = a := by
  induction l generalizing i with
  | nil => simp [idxOf] at h
  | cons b bs ih =>
    by_cases hb : b = a
    · simp [idxOf, hb] at h
      subst h
      simp [hb]
    · simp [idxOf, hb] at h
      obtain ⟨j, hj, rfl⟩ := h
      obtain ⟨h1, h2⟩ := ih hj
      refine ⟨by simp; omega, ?_⟩
      simpa using h2

theorem idxOf_mem {α : Type} [DecidableEq α] {l : List α} {a : α}
    (h : a ∈ l) : ∃ i, idxOf l a = some i := by
  induction l with
  | nil => simp at h
  | cons b bs ih =>
    by_cases hb : b = a
    · exact ⟨0, by simp [idxOf, hb]⟩
    · rcases List.mem_cons.mp h with h | h
      · exact absurd h.symm hb
      · obtain ⟨i, hi⟩ := ih h
        exact ⟨i + 1, by simp [idxOf, hb, hi]⟩

/-- Value of a little-endian bit list. -/
def bitsLEToNat : List Bool → Nat
  | [] => 0
  | b :: bs => (if b then 1 else 0) + 2 * bitsLEToNat bs

/-- `w`-bit little-endian encoding of `v` (drops bits beyond `w`). -/
def natToBitsLE : Nat → Nat → List Bool
  | 0, _ => []
  | w + 1, v => (v % 2 = 1) :: natToBitsLE w (v / 2)

theorem natToBitsLE_length (w v : Nat) : (natToBitsLE w v).length = w := by
  induction w generalizing v with
  | zero => rfl
  | succ w ih => simp [natToBitsLE, ih]

theorem bitsLEToNat_natToBitsLE {w v : Nat} (h : v < 2 ^ w) :
    bitsLEToNat (natToBitsLE w v) = v := by
  induction w generalizing v with
  | zero =>
    simp [natToBitsLE, bitsLEToNat]
    omega
  | succ w ih =>
    have hv : v / 2 < 2 ^ w := by
      have : 2 ^ (w + 1) = 2 ^ w * 2 := by ring
      omega
    simp only [natToBitsLE, bitsLEToNat, ih hv]
    rcases Nat.mod_two_eq_zero_or_one v with h2 | h2 <;> simp [h2] <;> omega

theorem bitsLEToNat_lt (bs : List Bool) : bitsLEToNat bs < 2 ^ bs.length := by
  induction bs with
  | nil => simp [bitsLEToNat]
  | cons b bs ih =>
    simp only [bitsLEToNat, List.length_cons, pow_succ]
    rcases b with _ | _ <;> simp <;> omega

theorem natToBitsLE_bitsLEToNat (bs : List Bool) :
    natToBitsLE bs.length (bitsLEToNat bs) = bs := by
  induction bs with
  | nil => rfl
  | cons b bs ih =>
    have hmod : ((if b then 1 else 0) + 2 * bitsLEToNat bs) % 2 = if b then 1 else 0 := by
      rcases b with _ | _ <;> simp <;> omega
    have hdiv : ((if b then 1 else 0) + 2 * bitsLEToNat bs) / 2 = bitsLEToNat bs := by
      rcases b with _ | _ <;> simp <;> omega
    simp only [List.length_cons, natToBitsLE, bitsLEToNat, hmod, hdiv, ih]
    rcases b with _ | _ <;> simp

/-- Read `w` bits off the front of a bit stream. -/
def readBits (w : Nat) (bits : List Bool) : Option (Nat × List Bool) :=
  if w ≤ bits.length then some (bitsLEToNat (bits.take w), bits.drop w) else none

theorem readBits_append {w v : Nat} (rest : List Bool) (h : v < 2 ^ w) :
    readBits w (natToBitsLE w v ++ rest) = some (v, rest) := by
  have hlen : (natToBitsLE w v).length = w := natToBitsLE_length w v
  have ht := List.take_left (natToBitsLE w v) rest
  have hd := List.drop_left (natToBitsLE w v) rest
  rw [hlen] at ht hd
  unfold readBits
  rw [if_pos (by rw [List.length_append, hlen]; omega)]
  rw [ht, hd, bitsLEToNat_natToBitsLE h]

theorem readBits_length {w : Nat} {bits rest : List Bool} {v : Nat}
    (h : readBits w bits = some (v, rest)) : rest.length + w = bits.length := by
  unfold readBits at h
  split at h
  · rename_i hle
    simp at h
    obtain ⟨-, h2⟩ := h
    subst h2
    simp
    omega
  · simp at h

/-- Conversion of a `u32` value to `char`, as in `char::from_u32`:
fails on surrogates and values above `0x10FFFF`. -/
def charFromNat (n : Nat) : Option Char :=
  if h : n.isValidChar then some (Char.ofNat n) else none

theorem charFromNat_toNat (c : Char) : charFromNat c.toNat = some c := by
  have hv : c.toNat.isValidChar := c.valid
  simp [charFromNat, hv, Char.ofNat_toNat]

theorem char_toNat_lt (c : Char) : c.toNat < 2 ^ 21 := by
  have hv : c.toNat.isValidChar := c.valid
  rcases hv with h | h <;> simp [Nat.pow_succ] at * <;> omega

/-! ### Dictionary compressor

Modelled from the spec: the `lz_str` crate's `compress_uri` /
`decompress_uri` (external, not in `src/`).  An LZ78-family dictionary
compressor: longest-prefix-match against a dictionary that grows by one
entry per emitted code, codes written in a bit width that widens at
power-of-two thresholds of the dictionary size, the bitstream repacked
into 6-bit groups through a fixed 64-symbol URI-safe alphabet, with a
fixed-width header recording the final group's padding. -/

/-- Dictionary of learned substrings; entry `i` has code `i + 1`
(code `0` denotes the empty prefix). -/
abbrev Dict := List (List Char)

/-- The substring a code denotes in the current dictionary. -/
def entryOf (D : Dict) (code : Nat) : List Char :=
  if code = 0 then [] else D.getD (code - 1) []

/-- Bit width used for a code when `n` code values are in play:
widens exactly when `n` crosses a power of two. -/
def codeWidth (n : Nat) : Nat := max 1 (Nat.clog 2 n)

theorem codeWidth_pos (n : Nat) : 1 ≤ codeWidth n := le_max_left _ _

theorem lt_two_pow_codeWidth {v n : Nat} (h : v < n) : v < 2 ^ codeWidth n := by
  have h1 : n ≤ 2 ^ Nat.clog 2 n := Nat.le_pow_clog (by norm_num) n
  have h2 : (2 : Nat) ^ Nat.clog 2 n ≤ 2 ^ codeWidth n :=
    Nat.pow_le_pow_right (by norm_num) (le_max_right _ _)
  omega

/-- LZ78-style tokenisation: longest-prefix-match, one new dictionary
entry per emitted `(code, literal)` token; a trailing token with no
literal flushes a final pending match.  `w` is the pending match and
`cw` its code (`0` iff `w = []`). -/
def lz78Encode (D : Dict) (w : List Char) (cw : Nat) : List Char → List (Nat × Option Char)
  | [] => if w.isEmpty then [] else [(cw, none)]
  | c :: rest =>
    match idxOf D (w ++ [c]) with
    | some i => lz78Encode D (w ++ [c]) (i + 1) rest
    | none => (cw, some c) :: lz78Encode (D ++ [w ++ [c]]) [] 0 rest

/-- Serialise a token stream to bits; `n` is the current dictionary
size, so codes occupy `codeWidth (n + 1)` bits and literals a fixed
21 bits. -/
def tokensToBits (n : Nat) : List (Nat × Option Char) → List Bool
  | [] => []
  | (code, none) :: ts =>
    natToBitsLE (codeWidth (n + 1)) code ++ tokensToBits n ts
  | (code, some c) :: ts =>
    natToBitsLE (codeWidth (n + 1)) code ++ natToBitsLE 21 c.toNat ++ tokensToBits (n + 1) ts

/-- Decode a bitstream, rebuilding the dictionary with the same growth
schedule as the encoder.  Fails (`none`) on truncated streams, on a
code referencing a not-yet-defined dictionary entry, and on an invalid
literal.  `fuel` bounds recursion depth; any `fuel ≥` bit length is
enough. -/
def decodeBits (fuel : Nat) (D : Dict) (bits : List Bool) : Option (List Char) :=
  if bits.isEmpty then some []
  else
    match fuel with
    | 0 => none
    | fuel + 1 =>
      match readBits (codeWidth (D.length + 1)) bits with
      | none => none
      | some (code, rest) =>
        if code > D.length then none
        else
          let p := entryOf D code
          if rest.isEmpty then some p
          else
            match readBits 21 rest with
            | none => none
            | some (lit, rest2) =>
              match charFromNat lit with
              | none => none
              | some c =>
                match decodeBits fuel (D ++ [p ++ [c]]) rest2 with
                | none => none
                | some out => some (p ++ c :: out)

theorem isEmpty_false_of_length_pos {α : Type} {l : List α} (h : 0 < l.length) :
    l.isEmpty = false := by
  cases l with
  | nil => simp at h
  | cons a as => rfl

/-- The coherence the encoder maintains between its pending match `w`
and its code `cw`, relative to the dictionary `D`. -/
def EncInv (D : Dict) (w : List Char) (cw : Nat) : Prop :=
  (cw = 0 ∧ w = []) ∨ (1 ≤ cw ∧ cw ≤ D.length ∧ D.getD (cw - 1) [] = w)

theorem entryOf_of_encInv {D : Dict} {w : List Char} {cw : Nat}
    (h : EncInv D w cw) : entryOf D cw = w := by
  rcases h with ⟨h0, hw⟩ | ⟨h1, h2, h3⟩
  · simp [entryOf, h0, hw]
  · have hne : cw ≠ 0 := by omega
    unfold entryOf
    rw [if_neg hne]
    exact h3

theorem encInv_le {D : Dict} {w : List Char} {cw : Nat}
    (h : EncInv D w cw) : cw ≤ D.length := by
  rcases h with ⟨h0, _⟩ | ⟨_, h2, _⟩
  · omega
  · exact h2

theorem lz78Encode_nil_empty (D : Dict) (cw : Nat) : lz78Encode D [] cw [] = [] := by
  simp [lz78Encode]

theorem lz78Encode_nil_pending (D : Dict) {w : List Char} (cw : Nat) (h : w ≠ []) :
    lz78Encode D w cw [] = [(cw, none)] := by
  have hwe : w.isEmpty = false := by
    cases w with
    | nil => exact absurd rfl h
    | cons a as => rfl
  simp [lz78Encode, hwe]

theorem lz78Encode_cons_mem {D : Dict} {w : List Char} {c : Char} {i : Nat}
    (cw : Nat) (rest : List Char) (h : idxOf D (w ++ [c]) = some i) :
    lz78Encode D w cw (c :: rest) = lz78Encode D (w ++ [c]) (i + 1) rest := by
  simp [lz78Encode, h]

theorem lz78Encode_cons_new {D : Dict} {w : List Char} {c : Char}
    (cw : Nat) (rest : List Char) (h : idxOf D (w ++ [c]) = none) :
    lz78Encode D w cw (c :: rest) =
      (cw, some c) :: lz78Encode (D ++ [w ++ [c]]) [] 0 rest := by
  simp [lz78Encode, h]

theorem decodeBits_nil (fuel : Nat) (D : Dict) : decodeBits fuel D [] = some [] := by
  unfold decodeBits
  rfl

/-- One decoder step on a final code-only token. -/
theorem decodeBits_final (f : Nat) (D : Dict) (cw : Nat) (hcw : cw ≤ D.length) :
    decodeBits (f + 1) D (natToBitsLE (codeWidth (D.length + 1)) cw) =
      some (entryOf D cw) := by
  have hW1 : 1 ≤ codeWidth (D.length + 1) := codeWidth_pos _
  have hWlen := natToBitsLE_length (codeWidth (D.length + 1)) cw
  have h1 : (natToBitsLE (codeWidth (D.length + 1)) cw).isEmpty = false :=
    isEmpty_false_of_length_pos (by omega)
  have hcwlt : cw < 2 ^ codeWidth (D.length + 1) := lt_two_pow_codeWidth (by omega)
  have hr : readBits (codeWidth (D.length + 1)) (natToBitsLE (codeWidth (D.length + 1)) cw) =
      some (cw, []) := by
    have := readBits_append (w := codeWidth (D.length + 1)) (v := cw) [] hcwlt
    simpa using this
  have hno : ¬ cw > D.length := by omega
  unfold decodeBits
  simp [h1, hr, hno]

/-- One decoder step on a `(code, literal)` token: the decoder learns
the same dictionary entry the encoder added. -/
theorem decodeBits_step (f : Nat) (D : Dict) (cw : Nat) (c : Char) (tail : List Bool)
    (hcw : cw ≤ D.length) :
    decodeBits (f + 1) D
        (natToBitsLE (codeWidth (D.length + 1)) cw ++ natToBitsLE 21 c.toNat ++ tail) =
      match decodeBits f (D ++ [entryOf D cw ++ [c]]) tail with
      | none => none
      | some out => some (entryOf D cw ++ c :: out) := by
  have hW1 : 1 ≤ codeWidth (D.length + 1) := codeWidth_pos _
  have hWlen := natToBitsLE_length (codeWidth (D.length + 1)) cw
  have hLlen := natToBitsLE_length 21 c.toNat
  have h1 : (natToBitsLE (codeWidth (D.length + 1)) cw ++ natToBitsLE 21 c.toNat ++
      tail).isEmpty = false :=
    isEmpty_false_of_length_pos (by simp [hWlen, hLlen])
  have hcwlt : cw < 2 ^ codeWidth (D.length + 1) := lt_two_pow_codeWidth (by omega)
  have hr1 : readBits (codeWidth (D.length + 1))
      (natToBitsLE (codeWidth (D.length + 1)) cw ++ natToBitsLE 21 c.toNat ++ tail) =
      some (cw, natToBitsLE 21 c.toNat ++ tail) := by
    rw [List.append_assoc]
    exact readBits_append _ hcwlt
  have h2 : (natToBitsLE 21 c.toNat ++ tail).isEmpty = false :=
    isEmpty_false_of_length_pos (by simp [hLlen])
  have hr2 : readBits 21 (natToBitsLE 21 c.toNat ++ tail) = some (c.toNat, tail) :=
    readBits_append _ (char_toNat_lt c)
  have hno : ¬ D.length < cw := by omega
  have hAne : natToBitsLE (codeWidth (D.length + 1)) cw ≠ [] := by
    intro h
    rw [h] at hWlen
    simp at hWlen
    omega
  have hBne : natToBitsLE 21 c.toNat ++ tail ≠ [] := by
    intro h
    have := congrArg List.length h
    simp [hLlen] at this
  have hr1R : readBits (codeWidth (D.length + 1))
      (natToBitsLE (codeWidth (D.length + 1)) cw ++ (natToBitsLE 21 c.toNat ++ tail)) =
      some (cw, natToBitsLE 21 c.toNat ++ tail) :=
    readBits_append _ hcwlt
  cases htail : decodeBits f (D ++ [entryOf D cw ++ [c]]) tail with
  | none =>
    unfold decodeBits
    simp [hAne, hBne, hr1R, hno, hr2, charFromNat_toNat, htail]
  | some out =>
    unfold decodeBits
    simp [hAne, hBne, hr1R, hno, hr2, charFromNat_toNat, htail]

/-- Decoding inverts encoding at the token/bit level: the decoder
re-derives the encoder's dictionary growth schedule from the code
stream itself. -/
theorem decodeBits_tokensToBits (rest : List Char) :
    ∀ (D : Dict) (w : List Char) (cw fuel : Nat),
      EncInv D w cw →
      (tokensToBits D.length (lz78Encode D w cw rest)).length ≤ fuel →
      decodeBits fuel D (tokensToBits D.length (lz78Encode D w cw rest)) = some (w ++ rest) := by
  induction rest with
  | nil =>
    intro D w cw fuel hinv hfuel
    by_cases hw : w = []
    · subst hw
      rw [lz78Encode_nil_empty]
      simp [tokensToBits, decodeBits_nil]
    · rw [lz78Encode_nil_pending D cw hw] at hfuel ⊢
      simp only [tokensToBits, List.append_nil] at hfuel ⊢
      have hWlen := natToBitsLE_length (codeWidth (D.length + 1)) cw
      have hW1 : 1 ≤ codeWidth (D.length + 1) := codeWidth_pos _
      cases fuel with
      | zero => omega
      | succ f =>
        rw [decodeBits_final f D cw (encInv_le hinv)]
        simp [entryOf_of_encInv hinv]
  | cons c rest ih =>
    intro D w cw fuel hinv hfuel
    cases hidx : idxOf D (w ++ [c]) with
    | some i =>
      rw [lz78Encode_cons_mem cw rest hidx] at hfuel ⊢
      have hinv2 : EncInv D (w ++ [c]) (i + 1) := by
        obtain ⟨hlt, hget⟩ := idxOf_some [] hidx
        exact Or.inr ⟨by omega, by omega, by simpa using hget⟩
      have := ih D (w ++ [c]) (i + 1) fuel hinv2 hfuel
      rw [this]
      simp
    | none =>
      rw [lz78Encode_cons_new cw rest hidx] at hfuel ⊢
      simp only [tokensToBits] at hfuel ⊢
      have hWlen := natToBitsLE_length (codeWidth (D.length + 1)) cw
      have hW1 : 1 ≤ codeWidth (D.length + 1) := codeWidth_pos _
      have hLlen := natToBitsLE_length 21 c.toNat
      have hlen_all : (natToBitsLE (codeWidth (D.length + 1)) cw ++
          natToBitsLE 21 c.toNat ++
          tokensToBits (D.length + 1) (lz78Encode (D ++ [w ++ [c]]) [] 0 rest)).length =
          codeWidth (D.length + 1) + 21 +
          (tokensToBits (D.length + 1) (lz78Encode (D ++ [w ++ [c]]) [] 0 rest)).length := by
        simp [hWlen, hLlen]
        omega
      cases fuel with
      | zero => omega
      | succ f =>
        rw [decodeBits_step f D cw c _ (encInv_le hinv)]
        rw [entryOf_of_encInv hinv]
        have hrec := ih (D ++ [w ++ [c]]) [] 0 f (Or.inl ⟨rfl, rfl⟩)
          (by simp only [List.length_append, List.length_cons, List.length_nil,
            Nat.zero_add]; omega)
        simp only [List.length_append, List.length_cons, List.length_nil,
          List.nil_append, Nat.add_zero, Nat.zero_add] at hrec
        rw [hrec]

/-- The fixed 64-symbol URI-safe alphabet (letters, digits and two
punctuation characters that need no percent-encoding). -/
def uriAlphabet : List Char :=
  ("ABCDEFGHIJKLMNOPQRSTUVWXYZabcdefghijklmnopqrstuvwxyz0123456789-_").data

/-- Symbol for a 6-bit value. -/
def alphaChar (v : Nat) : Char := uriAlphabet.getD v 'A'

/-- Option-valued map that fails when any element fails. -/
def mapOpt {α β : Type} (f : α → Option β) : List α → Option (List β)
  | [] => some []
  | a :: as =>
    match f a, mapOpt f as with
    | some b, some bs => some (b :: bs)
    | _, _ => none

/-- Repack a bitstream into 6-bit groups (the caller pads to a
multiple of six beforehand). -/
def pack6 : List Bool → List Nat
  | b1 :: b2 :: b3 :: b4 :: b5 :: b6 :: rest =>
    bitsLEToNat [b1, b2, b3, b4, b5, b6] :: pack6 rest
  | [] => []
  | shortBits => [bitsLEToNat shortBits]

/-- Inverse of `pack6` on padded streams. -/
def unpack6 (vals : List Nat) : List Bool := (vals.map (natToBitsLE 6)).join

theorem pack6_spec : ∀ (n : Nat) (bits : List Bool), bits.length = 6 * n →
    unpack6 (pack6 bits) = bits ∧ ∀ v ∈ pack6 bits, v < 64 := by
  intro n
  induction n with
  | zero =>
    intro bits h
    have hb : bits = [] := List.length_eq_zero.mp (by omega)
    subst hb
    refine ⟨rfl, ?_⟩
    intro v hv
    simp [pack6] at hv
  | succ n ih =>
    intro bits h
    rcases bits with _ | ⟨b1, _ | ⟨b2, _ | ⟨b3, _ | ⟨b4, _ | ⟨b5, _ | ⟨b6, rest⟩⟩⟩⟩⟩⟩ <;>
      simp only [List.length_cons, List.length_nil] at h
    · omega
    · omega
    · omega
    · omega
    · omega
    · omega
    · have hr : rest.length = 6 * n := by omega
      obtain ⟨ih1, ih2⟩ := ih rest hr
      have h6 : natToBitsLE 6 (bitsLEToNat [b1, b2, b3, b4, b5, b6]) =
          [b1, b2, b3, b4, b5, b6] := by
        have := natToBitsLE_bitsLEToNat [b1, b2, b3, b4, b5, b6]
        simpa using this
      constructor
      · simp only [pack6, unpack6, List.map_cons, List.join_cons]
        rw [h6]
        simp only [unpack6, List.join] at ih1
        rw [ih1]
        simp
      · intro v hv
        simp only [pack6, List.mem_cons] at hv
        rcases hv with rfl | hv
        · have := bitsLEToNat_lt [b1, b2, b3, b4, b5, b6]
          simpa using this
        · exact ih2 v hv

theorem idxOf_alphaChar : ∀ v, v < 64 →
    idxOf (uriAlphabet.map Char.toNat) (alphaChar v).toNat = some v := by decide

theorem mapOpt_alpha (l : List Nat) (h : ∀ v ∈ l, v < 64) :
    mapOpt (idxOf (uriAlphabet.map Char.toNat)) (l.map (Char.toNat ∘ alphaChar)) = some l := by
  induction l with
  | nil => rfl
  | cons v vs ih =>
    have hv : v < 64 := h v (by simp)
    have hvs : ∀ x ∈ vs, x < 64 := fun x hx => h x (by simp [hx])
    simp only [List.map_cons, mapOpt, Function.comp]
    rw [idxOf_alphaChar v hv, ih hvs]

/-- Modelled from the spec: `lz_str::compress_uri` (external crate, not
in `src/`).  Compresses text with the LZ78-family coder, pads the
bitstream to a multiple of six, maps 6-bit groups through the URI-safe
alphabet and prepends a header symbol recording the padding. -/
def compressUriChars (s : List Char) : List Char :=
  let bits := tokensToBits 0 (lz78Encode [] [] 0 s)
  let pad := (6 - bits.length % 6) % 6
  alphaChar pad :: (pack6 (bits ++ List.replicate pad false)).map alphaChar

/-- The numeric code units `lz_str::compress_uri` hands back to the
Rust caller (the caller turns each into a `char`). -/
def compress_uri (s : List Char) : List Nat := (compressUriChars s).map Char.toNat

/-- Modelled from the spec: `lz_str::decompress_uri` (external crate,
not in `src/`).  Reverses every encoding step and fails cleanly
(`none`) on invalid alphabet characters, truncated streams and codes
referencing not-yet-defined dictionary entries. -/
def decompress_uri (raw : List Nat) : Option (List Char) :=
  match raw with
  | [] => none
  | h :: groups =>
    match idxOf (uriAlphabet.map Char.toNat) h with
    | none => none
    | some pad =>
      if 5 < pad then none
      else
        match mapOpt (idxOf (uriAlphabet.map Char.toNat)) groups with
        | none => none
        | some vals =>
          let bits := unpack6 vals
          decodeBits bits.length [] (bits.take (bits.length - pad))

theorem decompress_uri_pack (bits : List Bool) (pad : Nat) (hp : pad ≤ 5)
    (hmod : (bits.length + pad) % 6 = 0) :
    decompress_uri ((alphaChar pad ::
      (pack6 (bits ++ List.replicate pad false)).map alphaChar).map Char.toNat) =
    decodeBits (bits.length + pad) [] bits := by
  obtain ⟨hun, hlt⟩ := pack6_spec ((bits.length + pad) / 6) (bits ++ List.replicate pad false)
    (by simp; omega)
  have hpno : ¬ 5 < pad := by omega
  have hlen : (bits ++ List.replicate pad false).length = bits.length + pad := by simp
  simp only [List.map_cons, List.map_map, decompress_uri,
    idxOf_alphaChar pad (by omega), hpno, if_false, mapOpt_alpha _ hlt, hun, hlen]
  rw [show bits.length + pad - pad = bits.length from by omega]
  rw [List.take_left]

/-- Round-trip of the modelled codec: decompression inverts
compression on every input text. -/
theorem decompress_compress_uri (s : List Char) :
    decompress_uri (compress_uri s) = some s := by
  have hc : compress_uri s =
      (alphaChar ((6 - (tokensToBits 0 (lz78Encode [] [] 0 s)).length % 6) % 6) ::
        (pack6 (tokensToBits 0 (lz78Encode [] [] 0 s) ++
          List.replicate ((6 - (tokensToBits 0 (lz78Encode [] [] 0 s)).length % 6) % 6)
            false)).map alphaChar).map Char.toNat := rfl
  rw [hc, decompress_uri_pack _ _ (by omega) (by omega)]
  have := decodeBits_tokensToBits s [] [] 0
    ((tokensToBits 0 (lz78Encode [] [] 0 s)).length +
      (6 - (tokensToBits 0 (lz78Encode [] [] 0 s)).length % 6) % 6)
    (Or.inl ⟨rfl, rfl⟩) (by simp)
  simpa using this

/-! ### Canonical structured-text (JSON) form of the game state

Modelled from the spec: `serde_json::to_string` / `from_str` for
`ClientGameState` (external crate, not in `src/`): the canonical text
is the single-field object holding the inventory as an array of
strings, fixed field order, no whitespace, with the usual string
escaping (quote, backslash, and control characters). -/

/-- Mirrors the Rust struct `ClientGameState { inventory: Vec<String> }`. -/
structure ClientGameState where
  inventory : List String
deriving DecidableEq, Repr

/-- Lowercase hex digit. -/
def hexDigit (n : Nat) : Char := ("0123456789abcdef").data.getD n '0'

/-- Value of a lowercase hex digit. -/
def hexVal (c : Char) : Option Nat := idxOf ("0123456789abcdef").data c

theorem hexVal_hexDigit : ∀ x, x < 16 → hexVal (hexDigit x) = some x := by decide

/-- JSON escaping of one character. -/
def escapeChar (c : Char) : List Char :=
  if c = '"' then ['\\', '"']
  else if c = '\\' then ['\\', '\\']
  else if c.toNat < 32 then
    ['\\', 'u', '0', '0', hexDigit (c.toNat / 16), hexDigit (c.toNat % 16)]
  else [c]

/-- Escaped body of a JSON string. -/
def escapeString (s : List Char) : List Char := (s.map escapeChar).join

/-- A JSON string literal, quotes included. -/
def printJString (s : List Char) : List Char := '"' :: escapeString s ++ ['"']

/-- Parse the body of a JSON string after its opening quote, returning
the decoded content and the input after the closing quote. -/
def parseJStringBody : List Char → Option (List Char × List Char)
  | [] => none
  | c :: rest =>
    if c = '"' then some ([], rest)
    else if c = '\\' then
      match rest with
      | [] => none
      | e :: rest1 =>
        if e = '"' then (parseJStringBody rest1).map (fun p => ('"' :: p.1, p.2))
        else if e = '\\' then (parseJStringBody rest1).map (fun p => ('\\' :: p.1, p.2))
        else if e = 'u' then
          match rest1 with
          | h1 :: h2 :: h3 :: h4 :: rest2 =>
            match hexVal h1, hexVal h2, hexVal h3, hexVal h4 with
            | some v1, some v2, some v3, some v4 =>
              match charFromNat (v1 * 4096 + v2 * 256 + v3 * 16 + v4) with
              | some ch => (parseJStringBody rest2).map (fun p => (ch :: p.1, p.2))
              | none => none
            | _, _, _, _ => none
          | _ => none
        else none
    else (parseJStringBody rest).map (fun p => (c :: p.1, p.2))

theorem parseJStringBody_shrink : ∀ (cs : List Char) (s r : List Char),
    parseJStringBody cs = some (s, r) → r.length < cs.length := by
  intro cs
  induction cs using parseJStringBody.induct with
  | case1 =>
    intro s r h
    rw [parseJStringBody.eq_def] at h
    simp at h
  | case2 rest1 =>
    intro s r h
    rw [parseJStringBody.eq_def] at h
    simp at h
    obtain ⟨-, rfl⟩ := h
    simp
  | case3 hne =>
    intro s r h
    rw [parseJStringBody.eq_def] at h
    simp at h
  | case4 rest1 hne ih =>
    intro s r h
    rw [parseJStringBody.eq_def] at h
    simp at h
    obtain ⟨a, hp, -⟩ := h
    have := ih a r hp
    simp only [List.length_cons]
    omega
  | case5 rest1 hne1 hne2 ih =>
    intro s r h
    rw [parseJStringBody.eq_def] at h
    simp at h
    obtain ⟨a, hp, -⟩ := h
    have := ih a r hp
    simp only [List.length_cons]
    omega
  | case6 h1 h2 h3 h4 rest2 v1 v2 v3 v4 hx4 hx3 hx2 hx1 ch hch hne1 hne2 hne3 ih =>
    intro s r h
    rw [parseJStringBody.eq_def] at h
    simp [hx1, hx2, hx3, hx4, hch] at h
    obtain ⟨a, hp, -⟩ := h
    have := ih a r hp
    simp only [List.length_cons]
    omega
  | case7 h1 h2 h3 h4 rest2 v1 v2 v3 v4 hx4 hx3 hx2 hx1 hch hne1 hne2 hne3 =>
    intro s r h
    rw [parseJStringBody.eq_def] at h
    simp [hx1, hx2, hx3, hx4, hch] at h
  | case8 h1 h2 h3 h4 rest2 hfail hne1 hne2 hne3 =>
    intro s r h
    rw [parseJStringBody.eq_def] at h
    rcases hx1 : hexVal h1 with _ | v1
    · simp [hx1] at h
    · rcases hx2 : hexVal h2 with _ | v2
      · simp [hx1, hx2] at h
      · rcases hx3 : hexVal h3 with _ | v3
        · simp [hx1, hx2, hx3] at h
        · rcases hx4 : hexVal h4 with _ | v4
          · simp [hx1, hx2, hx3, hx4] at h
          · exact (hfail v1 v2 v3 v4 hx1 hx2 hx3 hx4).elim
  | case9 rest1 hshape hne1 hne2 hne3 =>
    intro s r h
    rcases rest1 with _ | ⟨a, _ | ⟨b, _ | ⟨c, _ | ⟨d, t⟩⟩⟩⟩
    · rw [parseJStringBody.eq_def] at h
      simp at h
    · rw [parseJStringBody.eq_def] at h
      simp at h
    · rw [parseJStringBody.eq_def] at h
      simp at h
    · rw [parseJStringBody.eq_def] at h
      simp at h
    · exact (hshape a b c d t rfl).elim
  | case10 e rest1 hne1 hne2 hne3 hne4 =>
    intro s r h
    rw [parseJStringBody.eq_def] at h
    simp [hne1, hne2, hne3] at h
  | case11 e rest1 hne1 hne2 ih =>
    intro s r h
    rw [parseJStringBody.eq_def] at h
    simp [hne1, hne2] at h
    obtain ⟨a, hp, -⟩ := h
    have := ih a r hp
    simp only [List.length_cons]
    omega

theorem escapeString_cons (c : Char) (cs : List Char) :
    escapeString (c :: cs) = escapeChar c ++ escapeString cs := by
  simp [escapeString]

/-- Parsing inverts escaping: the parser recovers exactly the escaped
string and leaves the rest of the input untouched. -/
theorem parseJStringBody_escape (s rest : List Char) :
    parseJStringBody (escapeString s ++ '"' :: rest) = some (s, rest) := by
  induction s with
  | nil =>
    rw [show escapeString [] = [] from rfl, List.nil_append, parseJStringBody.eq_def]
    simp
  | cons c cs ih =>
    rw [escapeString_cons, List.append_assoc]
    by_cases hc1 : c = '"'
    · subst hc1
      rw [show escapeChar '"' = ['\\', '"'] from rfl]
      rw [parseJStringBody.eq_def]
      simp [ih]
    · by_cases hc2 : c = '\\'
      · subst hc2
        rw [show escapeChar '\\' = ['\\', '\\'] from rfl]
        rw [parseJStringBody.eq_def]
        simp [ih]
      · by_cases hc3 : c.toNat < 32
        · have hesc : escapeChar c = ['\\', 'u', '0', '0', hexDigit (c.toNat / 16),
              hexDigit (c.toNat % 16)] := by
            simp [escapeChar, hc1, hc2, hc3]
          rw [hesc]
          rw [parseJStringBody.eq_def]
          have h0 : hexVal ('0') = some 0 := by decide
          have hhi : hexVal (hexDigit (c.toNat / 16)) = some (c.toNat / 16) :=
            hexVal_hexDigit _ (by omega)
          have hlo : hexVal (hexDigit (c.toNat % 16)) = some (c.toNat % 16) :=
            hexVal_hexDigit _ (by omega)
          have hval : c.toNat / 16 * 16 + c.toNat % 16 = c.toNat := by omega
          simp [h0, hhi, hlo, hval, charFromNat_toNat, ih]
        · have hesc : escapeChar c = [c] := by simp [escapeChar, hc1, hc2, hc3]
          rw [hesc]
          rw [parseJStringBody.eq_def]
          simp [hc1, hc2, ih]

/-- Closing brace character, written numerically. -/
def rbrace : Char := Char.ofNat 125

/-- The fixed object head of the canonical state text. -/
def jsonHead : List Char := ("\x7b\"inventory\":[").data

/-- Strip an expected literal off the front of the input. -/
def dropLit : List Char → List Char → Option (List Char)
  | [], cs => some cs
  | _ :: _, [] => none
  | p :: ps, c :: cs => if p = c then dropLit ps cs else none

theorem dropLit_append (pat rest : List Char) : dropLit pat (pat ++ rest) = some rest := by
  induction pat with
  | nil => rfl
  | cons p ps ih => simp [dropLit, ih]

/-- Parse the items of the inventory array, positioned just after an
opening quote; expects the exact closing text afterwards.  The fuel
only bounds the recursion depth; every parsing step consumes input, so
`cs.length` fuel (as used by `parseItems`) never runs out early. -/
def parseItemsF : Nat → List Char → Option (List String)
  | 0, _ => none
  | fuel + 1, cs =>
    match parseJStringBody cs with
    | none => none
    | some (s, ',' :: c :: r2) =>
      if c = '"' then (parseItemsF fuel r2).map (fun l => String.mk s :: l) else none
    | some (s, ']' :: c :: r2) =>
      if c = rbrace ∧ r2 = [] then some [String.mk s] else none
    | some _ => none

def parseItems (cs : List Char) : Option (List String) := parseItemsF cs.length cs

/-- Strict parse of the canonical structured text into a game state. -/
def parseGameStateChars (cs : List Char) : Option ClientGameState :=
  match dropLit jsonHead cs with
  | none => none
  | some (']' :: c :: r2) => if c = rbrace ∧ r2 = [] then some ⟨[]⟩ else none
  | some ('"' :: rest1) =>
    match parseItems rest1 with
    | none => none
    | some items => some ⟨items⟩
  | some _ => none

/-- Serialisation of the inventory items, comma separated. -/
def serializeItems : List String → List Char
  | [] => []
  | s :: rest =>
    printJString s.data ++ (if rest.isEmpty then [] else [',']) ++ serializeItems rest

/-- The canonical structured-text form of a game state. -/
def serializeGameState (st : ClientGameState) : List Char :=
  jsonHead ++ serializeItems st.inventory ++ (']' :: rbrace :: [])

theorem parseItemsF_serialize (items : List String) : ∀ (fuel : Nat) (s : String),
    items.length < fuel →
    parseItemsF fuel (escapeString s.data ++ '"' ::
      ((if items.isEmpty then [] else [',']) ++ serializeItems items ++
        (']' :: rbrace :: []))) = some (s :: items) := by
  induction items with
  | nil =>
    intro fuel s hf
    cases fuel with
    | zero => omega
    | succ f =>
      rw [show (if ([] : List String).isEmpty then ([] : List Char) else [',']) ++
        serializeItems [] ++ (']' :: rbrace :: []) = ']' :: rbrace :: [] from rfl]
      simp only [parseItemsF, parseJStringBody_escape]
      simp [show String.mk s.data = s from rfl]
  | cons s2 rest ih =>
    intro fuel s hf
    cases fuel with
    | zero => omega
    | succ f =>
      have hr2 : (if (s2 :: rest).isEmpty then ([] : List Char) else [',']) ++
          serializeItems (s2 :: rest) ++ (']' :: rbrace :: []) =
          ',' :: '"' :: (escapeString s2.data ++ '"' ::
            ((if rest.isEmpty then [] else [',']) ++ serializeItems rest ++
              (']' :: rbrace :: []))) := by
        simp [serializeItems, printJString]
      rw [hr2]
      simp only [parseItemsF, parseJStringBody_escape]
      have hihr := ih f s2 (by simp only [List.length_cons] at hf; omega)
      simp [show String.mk s.data = s from rfl]
      simpa using hihr

theorem serializeItems_length (items : List String) :
    items.length ≤ (serializeItems items).length := by
  induction items with
  | nil => simp [serializeItems]
  | cons s rest ih =>
    simp [serializeItems, printJString]
    omega

theorem parseItems_serialize (items : List String) (s : String) :
    parseItems (escapeString s.data ++ '"' ::
      ((if items.isEmpty then [] else [',']) ++ serializeItems items ++
        (']' :: rbrace :: []))) = some (s :: items) := by
  apply parseItemsF_serialize
  have h1 := serializeItems_length items
  simp
  omega

theorem parseGameStateChars_serialize (st : ClientGameState) :
    parseGameStateChars (serializeGameState st) = some st := by
  obtain ⟨inv⟩ := st
  cases inv with
  | nil =>
    rw [show serializeGameState ⟨[]⟩ = jsonHead ++ (']' :: rbrace :: []) from by
      simp [serializeGameState, serializeItems]]
    simp only [parseGameStateChars, dropLit_append]
    simp
  | cons s rest =>
    rw [show serializeGameState ⟨s :: rest⟩ = jsonHead ++ ('"' ::
        (escapeString s.data ++ '"' :: ((if rest.isEmpty then [] else [',']) ++
          serializeItems rest ++ (']' :: rbrace :: [])))) from by
      simp [serializeGameState, serializeItems, printJString]]
    simp only [parseGameStateChars, dropLit_append]
    rw [parseItems_serialize]

theorem mapOpt_charFromNat_map (cs : List Char) :
    mapOpt charFromNat (cs.map Char.toNat) = some cs := by
  induction cs with
  | nil => rfl
  | cons c rest ih => simp [mapOpt, charFromNat_toNat, ih]

/-- Mirrors `ClientGameState::to_state_string` (src/main.rs): serialise
to the canonical text, compress through the URI-safe codec, and turn
each returned code unit into a `char`.  `none` models the function's
`panic!` branch (a compressed value `char::from_u32` rejects). -/
def to_state_string (s : ClientGameState) : Option String :=
  match mapOpt charFromNat (compress_uri (serializeGameState s)) with
  | none => none
  | some cs => some (String.mk cs)

/-- Mirrors `ClientGameState::from_state_string` (src/main.rs): map the
token's chars to code units, decompress, and parse the structured
text.  `none` models a panic of the two `expect` calls: the process
aborts when decompression fails or the text does not parse. -/
def from_state_string (t : String) : Option ClientGameState :=
  match decompress_uri (t.data.map Char.toNat) with
  | none => none
  | some json => parseGameStateChars json

theorem to_state_string_eq (s : ClientGameState) :
    to_state_string s = some (String.mk (compressUriChars (serializeGameState s))) := by
  unfold to_state_string compress_uri
  rw [mapOpt_charFromNat_map]

/-- The state codec round-trips: encoding any client game state
produces a token, and decoding that token restores the state. -/
theorem state_roundtrip (s : ClientGameState) :
    ∃ t, to_state_string s = some t ∧ from_state_string t = some s := by
  refine ⟨String.mk (compressUriChars (serializeGameState s)), to_state_string_eq s, ?_⟩
  simp only [from_state_string]
  rw [show List.map Char.toNat (compressUriChars (serializeGameState s)) =
    compress_uri (serializeGameState s) from rfl]
  rw [decompress_compress_uri]
  simp [parseGameStateChars_serialize]

/-! ### Response DTOs and classification

Mirrors the `#[derive(Deserialize)]` DTOs of src/main.rs and serde's
`#[serde(untagged)]` deserialisation of `SubmitCommandResponse`: each
variant is tried in declaration order and the first whose required
fields are all present wins; unknown fields are ignored (serde's
default for structs without `deny_unknown_fields`). -/

/-- Mirrors `GameScreenDto { id, body }`. -/
structure GameScreenDto where
  id : String
  body : List String
deriving DecidableEq, Repr

/-- Mirrors `SubmitCommandPrintMessageSuccessDto`. -/
structure SubmitCommandPrintMessageSuccessDto where
  success : Bool
  command_action_type : String
  print_message : List String
  state : String
  items_added : List String
  items_removed : List String
deriving DecidableEq, Repr

/-- Mirrors `SubmitCommandNavigationSuccessDto`. -/
structure SubmitCommandNavigationSuccessDto where
  success : Bool
  command_action_type : String
  screen : GameScreenDto
  state : String
  items_added : List String
  items_removed : List String
deriving DecidableEq, Repr

/-- Mirrors `SubmitCommandFailureDto`. -/
structure SubmitCommandFailureDto where
  success : Bool
  message : String
deriving DecidableEq, Repr

/-- Mirrors the untagged enum `SubmitCommandResponse`. -/
inductive SubmitCommandResponse where
  | SubmitCommandPrintMessageSuccess (dto : SubmitCommandPrintMessageSuccessDto)
  | SubmitCommandNavigationSuccess (dto : SubmitCommandNavigationSuccessDto)
  | SubmitCommandFailure (dto : SubmitCommandFailureDto)
deriving DecidableEq, Repr

/-- A raw deserialised server response before classification: each
JSON field the DTOs mention, present (with a well-typed value) or
absent.  A field of the wrong JSON type behaves like an absent one. -/
structure RawResponse where
  success : Option Bool
  command_action_type : Option String
  print_message : Option (List String)
  screen : Option GameScreenDto
  state : Option String
  items_added : Option (List String)
  items_removed : Option (List String)
  message : Option String
deriving DecidableEq, Repr

/-- Deserialisation of the `printMessage` variant: requires its six
fields, ignores all others (in particular a `screen` field). -/
def parseMessageDto (r : RawResponse) : Option SubmitCommandPrintMessageSuccessDto :=
  match r.success, r.command_action_type, r.print_message, r.state,
      r.items_added, r.items_removed with
  | some su, some ty, some pm, some st, some ia, some ir =>
    some ⟨su, ty, pm, st, ia, ir⟩
  | _, _, _, _, _, _ => none

/-- Deserialisation of the navigation variant. -/
def parseNavigationDto (r : RawResponse) : Option SubmitCommandNavigationSuccessDto :=
  match r.success, r.command_action_type, r.screen, r.state,
      r.items_added, r.items_removed with
  | some su, some ty, some sc, some st, some ia, some ir =>
    some ⟨su, ty, sc, st, ia, ir⟩
  | _, _, _, _, _, _ => none

/-- Deserialisation of the failure variant. -/
def parseFailureDto (r : RawResponse) : Option SubmitCommandFailureDto :=
  match r.success, r.message with
  | some su, some msg => some ⟨su, msg⟩
  | _, _ => none

/-- serde's untagged deserialisation of `SubmitCommandResponse`: try
the variants in declaration order, first full match wins; `none`
models a response matching no variant (the `serde_json` error that
`submit_command`'s `.unwrap()` turns into a panic). -/
def classify (r : RawResponse) : Option SubmitCommandResponse :=
  match parseMessageDto r with
  | some d => some (SubmitCommandResponse.SubmitCommandPrintMessageSuccess d)
  | none =>
    match parseNavigationDto r with
    | some d => some (SubmitCommandResponse.SubmitCommandNavigationSuccess d)
    | none =>
      match parseFailureDto r with
      | some d => some (SubmitCommandResponse.SubmitCommandFailure d)
      | none => none

/-! ### The game session and the REPL step

Mirrors `struct Game` and the body of `main`'s input loop
(src/main.rs).  The blocking HTTP client is an opaque handle the loop
never reassigns.  Printed lines are collected in order; a `none` /
`panicked` result models a process abort (`unwrap`/`expect`). -/

/-- Mirrors `Game { current_screen, current_state, client }`; `client`
stands for the reqwest handle, opaque to the session logic. -/
structure Game where
  current_screen : GameScreenDto
  current_state : ClientGameState
  client : Nat
deriving DecidableEq, Repr

/-- The item diff lines printed after a successful outcome. -/
def itemsAddedLines (items : List String) : List String :=
  if items.length > 0 then ("Items added:") :: items.map (fun n => ("+ ") ++ n) else []

def itemsRemovedLines (items : List String) : List String :=
  if items.length > 0 then ("Items removed:") :: items.map (fun n => ("- ") ++ n) else []

/-- Applying a classified response to the session: the match arms of
`main`'s loop on `submit_command`'s result.  Returns the new session
and the printed lines; `none` models the panic of
`ClientGameState::from_state_string`'s `expect` calls. -/
def applyResponse (g : Game) : SubmitCommandResponse → Option (Game × List String)
  | SubmitCommandResponse.SubmitCommandPrintMessageSuccess dto =>
    match from_state_string dto.state with
    | none => none
    | some st =>
      some ({ g with current_state := st },
        dto.print_message ++ itemsAddedLines dto.items_added ++
          itemsRemovedLines dto.items_removed)
  | SubmitCommandResponse.SubmitCommandNavigationSuccess dto =>
    match from_state_string dto.state with
    | none => none
    | some st =>
      some ({ g with current_state := st, current_screen := dto.screen },
        dto.screen.body ++ itemsAddedLines dto.items_added ++
          itemsRemovedLines dto.items_removed)
  | SubmitCommandResponse.SubmitCommandFailure dto => some (g, [dto.message])

/-- Result of one REPL iteration. -/
inductive StepResult where
  | quit : StepResult
  | panicked : StepResult
  | next : Game → List String → Bool → StepResult
deriving DecidableEq, Repr

/-- Rust's `str::trim`, on the whitespace characters Lean models. -/
def trimChars (cs : List Char) : List Char :=
  ((cs.dropWhile Char.isWhitespace).reverse.dropWhile Char.isWhitespace).reverse

def trimString (s : String) : String := String.mk (trimChars s.data)

/-- The help text printed by `print_help_text` (abridged: its content
is display-only and plays no role in the session logic). -/
def helpLines : List String :=
  [("List of commands:"), ("/inventory"), ("    List your inventory")]

/-- One iteration of `main`'s loop on the trimmed input.  Slash
commands are handled locally; anything else is submitted as a command
(`raw` stands for the server's raw response to it).  The third
component records whether a network submission happened.  `panicked`
models the panics of `to_state_string`, of `submit_command`'s
`.unwrap()`, and of `from_state_string`. -/
def step (g : Game) (input : String) (raw : RawResponse) : StepResult :=
  match trimString input with
  | "/inventory" =>
    StepResult.next g (("Current inventory:") ::
      g.current_state.inventory.map (fun i => ("  ") ++ i)) false
  | "/screen-id" | "/screen" => StepResult.next g [g.current_screen.id] false
  | "/look" | "/whereami" | "/where" | "/repeat" | "/again" =>
    StepResult.next g g.current_screen.body false
  | "/help" | "/?" => StepResult.next g helpLines false
  | "/exit" | "/quit" => StepResult.quit
  | _ =>
    match to_state_string g.current_state with
    | none => StepResult.panicked
    | some _ =>
      match classify raw with
      | none => StepResult.panicked
      | some resp =>
        match applyResponse g resp with
        | none => StepResult.panicked
        | some (g2, out) => StepResult.next g2 out true

/-! ### Shared helper facts -/

theorem toStateString_isSome (s : ClientGameState) : ∃ t, to_state_string s = some t :=
  (state_roundtrip s).imp (fun _ h => h.1)

theorem from_to_getD (s : ClientGameState) :
    from_state_string ((to_state_string s).getD ("")) = some s := by
  obtain ⟨t, h1, h2⟩ := state_roundtrip s
  rw [h1]
  exact h2

/-- The state token carried by a response variant, if any. -/
def respToken : SubmitCommandResponse → Option String
  | SubmitCommandResponse.SubmitCommandPrintMessageSuccess d => some d.state
  | SubmitCommandResponse.SubmitCommandNavigationSuccess d => some d.state
  | SubmitCommandResponse.SubmitCommandFailure _ => none

/-! ### The claims -/

/-- C1, counterexample: a server response carrying both `printMessage`
and `screen` (together with all fields of the Message shape) classifies
as a `printMessage` outcome, not as Navigation: serde's untagged
deserialisation tries the Message variant first and ignores the
unknown `screen` field, so the claimed Navigation priority is false. -/
theorem c1_both_fields_counterexample :
    classify ⟨some true, some ("take"), some [("m1")], some ⟨("s1"), [("b1")]⟩,
        some ("t1"), some [], some [], some ("msg")⟩ =
      some (SubmitCommandResponse.SubmitCommandPrintMessageSuccess
        ⟨true, ("take"), [("m1")], ("t1"), [], []⟩) ∧
    ∀ d, classify ⟨some true, some ("take"), some [("m1")], some ⟨("s1"), [("b1")]⟩,
        some ("t1"), some [], some [], some ("msg")⟩ ≠
      some (SubmitCommandResponse.SubmitCommandNavigationSuccess d) := by
  refine ⟨rfl, fun d h => ?_⟩
  rw [show classify ⟨some true, some ("take"), some [("m1")], some ⟨("s1"), [("b1")]⟩,
      some ("t1"), some [], some [], some ("msg")⟩ =
    some (SubmitCommandResponse.SubmitCommandPrintMessageSuccess
      ⟨true, ("take"), [("m1")], ("t1"), [], []⟩) from rfl] at h
  exact SubmitCommandResponse.noConfusion (Option.some.inj h)

/-- C1, amended: classification tries the variants in the declared
order Message, then Navigation, then Failure, and accepts the first
whose required fields are all present; unknown fields are ignored, so
a response carrying the Message shape classifies as a Message outcome
regardless of any `screen` field (a response with both `printMessage`
and `screen` yields Message, not Navigation). -/
theorem c1_classification_order :
    (∀ (r : RawResponse) (d : SubmitCommandPrintMessageSuccessDto),
      parseMessageDto r = some d →
      classify r = some (SubmitCommandResponse.SubmitCommandPrintMessageSuccess d)) ∧
    (∀ (r : RawResponse) (d : SubmitCommandPrintMessageSuccessDto)
      (sc : GameScreenDto), parseMessageDto r = some d →
      classify { r with screen := some sc } =
        some (SubmitCommandResponse.SubmitCommandPrintMessageSuccess d)) ∧
    (∀ (r : RawResponse) (d : SubmitCommandNavigationSuccessDto),
      parseMessageDto r = none → parseNavigationDto r = some d →
      classify r = some (SubmitCommandResponse.SubmitCommandNavigationSuccess d)) ∧
    (∀ (r : RawResponse) (d : SubmitCommandFailureDto),
      parseMessageDto r = none → parseNavigationDto r = none → parseFailureDto r = some d →
      classify r = some (SubmitCommandResponse.SubmitCommandFailure d)) := by
  refine ⟨fun r d h => by simp [classify, h], fun r d sc h => ?_,
    fun r d h1 h2 => by simp [classify, h1, h2],
    fun r d h1 h2 h3 => by simp [classify, h1, h2, h3]⟩
  have he : parseMessageDto { r with screen := some sc } = parseMessageDto r := rfl
  simp [classify, he, h]

/-- C1, witness for the amended order: a response with only the
Navigation shape's fields classifies as Navigation. -/
theorem c1_classification_order_witness :
    classify ⟨some true, some ("nav"), none, some ⟨("X"), [("cave")]⟩,
        some ("t2"), some [], some [], none⟩ =
      some (SubmitCommandResponse.SubmitCommandNavigationSuccess
        ⟨true, ("nav"), ⟨("X"), [("cave")]⟩, ("t2"), [], []⟩) :=
  c1_classification_order.2.2.1
    ⟨some true, some ("nav"), none, some ⟨("X"), [("cave")]⟩,
      some ("t2"), some [], some [], none⟩
    ⟨true, ("nav"), ⟨("X"), [("cave")]⟩, ("t2"), [], []⟩ rfl rfl

/-- C2: the state codec round-trips; decoding the token produced by
encoding any client game state returns exactly that state
(`decode(encode(s)) = s` with `encode = to_state_string`,
`decode = from_state_string`). -/
theorem c2_state_roundtrip (s : ClientGameState) :
    ∃ t, to_state_string s = some t ∧ from_state_string t = some s :=
  state_roundtrip s

/-- C3, counterexample: on the invalid token `~` the underlying
decompression fails cleanly (the crate returns `None`), but
`ClientGameState::from_state_string` has no error channel at all — its
`expect` turns the failure into a panic (modelled by `none`), crashing
the process instead of returning a recoverable `DecodeError`. -/
theorem c3_decode_crash_counterexample :
    from_state_string ("~") = none ∧
    decompress_uri (("~").data.map Char.toNat) = none := by
  exact ⟨by decide, by decide⟩

/-- C3, amended: the decoder detects every invalid token (the
decompression or the structured-text parse returns `None`), but
`from_state_string` converts any such failure into a process-aborting
panic via `expect` rather than surfacing a recoverable error; it
panics exactly when one of the two stages fails. -/
theorem c3_decode_panics_on_invalid (t : String) :
    from_state_string t = none ↔
      (decompress_uri (t.data.map Char.toNat) = none ∨
        ∃ json, decompress_uri (t.data.map Char.toNat) = some json ∧
          parseGameStateChars json = none) := by
  unfold from_state_string
  cases h : decompress_uri (t.data.map Char.toNat) with
  | none => simp
  | some json =>
    cases hp : parseGameStateChars json with
    | none => simp [hp]
    | some st => simp [hp]

/-- C3, witness: the amended theorem applied at the token `~`. -/
theorem c3_decode_panics_witness : from_state_string ("~") = none :=
  (c3_decode_panics_on_invalid ("~")).mpr (Or.inl (by decide))

/-- C4, counterexample: a response matching none of the three shapes
(here the empty response) is indeed never classified as an outcome,
but no `ProtocolError` is surfaced: `submit_command`'s `.unwrap()`
panics, aborting the whole process (`StepResult.panicked`), which
refutes 'non-recoverable for that call but not fatal to the
process'. -/
theorem c4_protocol_crash_counterexample :
    classify ⟨none, none, none, none, none, none, none, none⟩ = none ∧
    step ⟨⟨("s0"), []⟩, ⟨[]⟩, 0⟩ ("go north")
        ⟨none, none, none, none, none, none, none, none⟩ = StepResult.panicked := by
  constructor
  · rfl
  · obtain ⟨t, ht⟩ := toStateString_isSome ⟨[]⟩
    unfold step
    simp [show trimString ("go north") = ("go north") from rfl, ht]
    rfl

/-- C4, amended: a raw response in which none of the three variant
shapes is present is never silently classified as any outcome; the
deserialisation error makes the loop iteration panic (the `.unwrap()`
in `submit_command`), aborting the process — no distinct
`ProtocolError` value exists in the code. -/
theorem c4_unmatched_response_panics (g : Game) (raw : RawResponse)
    (h1 : parseMessageDto raw = none) (h2 : parseNavigationDto raw = none)
    (h3 : parseFailureDto raw = none) :
    step g ("go north") raw = StepResult.panicked := by
  have hcl : classify raw = none := by simp [classify, h1, h2, h3]
  obtain ⟨t, ht⟩ := toStateString_isSome g.current_state
  unfold step
  simp [show trimString ("go north") = ("go north") from rfl, ht, hcl]

/-- C4, witness: the amended theorem applied to the empty response. -/
theorem c4_unmatched_response_witness :
    step ⟨⟨("w0"), []⟩, ⟨[]⟩, 1⟩ ("go north")
      ⟨none, none, none, none, none, none, none, none⟩ = StepResult.panicked :=
  c4_unmatched_response_panics ⟨⟨("w0"), []⟩, ⟨[]⟩, 1⟩
    ⟨none, none, none, none, none, none, none, none⟩ rfl rfl rfl

/-- C5, counterexample: a navigation outcome whose state token is
invalid (`~`) yields no post-call session at all — the transition
panics (`none`), so the session does not survive to an 'after the
call' in which it holds its pre-call values with the error reported;
in particular no session with the new screen installed ever exists. -/
theorem c5_decode_failure_counterexample :
    applyResponse ⟨⟨("s0"), []⟩, ⟨[]⟩, 0⟩
      (SubmitCommandResponse.SubmitCommandNavigationSuccess
        ⟨true, ("nav"), ⟨("X"), [("cave")]⟩, ("~"), [], []⟩) = none := by
  decide

/-- C5, amended: when decoding an outcome's state token fails, the
process panics before any session mutation: `applyResponse` yields no
successor session at all (for Navigation the decode precedes the
screen install, so the new screen is never installed and no partially
updated session is observable), but the session also does not survive
with its old values — there is no recoverable post-call state. -/
theorem c5_no_partial_transition (g : Game) (resp : SubmitCommandResponse) (t : String)
    (h1 : respToken resp = some t) (h2 : from_state_string t = none) :
    applyResponse g resp = none := by
  cases resp with
  | SubmitCommandPrintMessageSuccess d =>
    simp only [respToken, Option.some.injEq] at h1
    subst h1
    simp [applyResponse, h2]
  | SubmitCommandNavigationSuccess d =>
    simp only [respToken, Option.some.injEq] at h1
    subst h1
    simp [applyResponse, h2]
  | SubmitCommandFailure d => simp [respToken] at h1

/-- C5, witness: the amended theorem applied to a navigation outcome
with the invalid token `~`. -/
theorem c5_no_partial_transition_witness :
    applyResponse ⟨⟨("w5"), []⟩, ⟨[]⟩, 2⟩
      (SubmitCommandResponse.SubmitCommandNavigationSuccess
        ⟨true, ("nav"), ⟨("Y"), []⟩, ("~"), [], []⟩) = none :=
  c5_no_partial_transition ⟨⟨("w5"), []⟩, ⟨[]⟩, 2⟩
    (SubmitCommandResponse.SubmitCommandNavigationSuccess
      ⟨true, ("nav"), ⟨("Y"), []⟩, ("~"), [], []⟩) ("~") rfl (by decide)

/-- C6: applying a MessageOutcome replaces `current_state` with the
decoded token, leaves `current_screen` untouched and modifies no other
session field (the client handle is preserved); the printed lines are
the message followed by the item diffs. -/
theorem c6_message_frame (g : Game) (dto : SubmitCommandPrintMessageSuccessDto)
    (st : ClientGameState) (h : from_state_string dto.state = some st) :
    applyResponse g (SubmitCommandResponse.SubmitCommandPrintMessageSuccess dto) =
      some (⟨g.current_screen, st, g.client⟩,
        dto.print_message ++ itemsAddedLines dto.items_added ++
          itemsRemovedLines dto.items_removed) := by
  simp [applyResponse, h]

/-- C6, witness: a concrete message outcome whose token encodes the
inventory `["lamp"]`. -/
theorem c6_message_frame_witness :
    applyResponse ⟨⟨("s0"), [("intro")]⟩, ⟨[]⟩, 3⟩
      (SubmitCommandResponse.SubmitCommandPrintMessageSuccess
        ⟨true, ("msg"), [("Taken.")], (to_state_string ⟨[("lamp")]⟩).getD (""),
          [("lamp")], []⟩) =
      some (⟨⟨("s0"), [("intro")]⟩, ⟨[("lamp")]⟩, 3⟩,
        [("Taken.")] ++ itemsAddedLines [("lamp")] ++ itemsRemovedLines []) :=
  c6_message_frame ⟨⟨("s0"), [("intro")]⟩, ⟨[]⟩, 3⟩
    ⟨true, ("msg"), [("Taken.")], (to_state_string ⟨[("lamp")]⟩).getD (""),
      [("lamp")], []⟩ ⟨[("lamp")]⟩ (from_to_getD ⟨[("lamp")]⟩)

/-- C7: applying a FailureOutcome mutates neither the screen nor the
state nor any other session field, and the rendered output is exactly
the failure message and nothing else. -/
theorem c7_failure_frame (g : Game) (dto : SubmitCommandFailureDto) :
    applyResponse g (SubmitCommandResponse.SubmitCommandFailure dto) =
      some (g, [dto.message]) := rfl

/-- C8: encoding never fails on any well-formed game state —
`to_state_string` always produces a token; its panic branch (a
compressed value `char::from_u32` rejects) is unreachable, since the
compressor only emits code units of URI-alphabet characters. -/
theorem c8_encode_never_fails (s : ClientGameState) :
    ∃ t, to_state_string s = some t :=
  toStateString_isSome s

/-- C9: every `/look`-family slash command re-renders the current
screen body, leaves the session exactly as it was and performs no
network submission (the flag in the result is `false`). -/
theorem c9_rerender_idempotent (g : Game) (raw : RawResponse) :
    step g ("/look") raw = StepResult.next g g.current_screen.body false ∧
    step g ("/whereami") raw = StepResult.next g g.current_screen.body false ∧
    step g ("/where") raw = StepResult.next g g.current_screen.body false ∧
    step g ("/repeat") raw = StepResult.next g g.current_screen.body false ∧
    step g ("/again") raw = StepResult.next g g.current_screen.body false :=
  ⟨rfl, rfl, rfl, rfl, rfl⟩

/-- Replace only the success flag inside a classified response. -/
def withSuccess : SubmitCommandResponse → Bool → SubmitCommandResponse
  | SubmitCommandResponse.SubmitCommandPrintMessageSuccess d, b =>
    SubmitCommandResponse.SubmitCommandPrintMessageSuccess { d with success := b }
  | SubmitCommandResponse.SubmitCommandNavigationSuccess d, b =>
    SubmitCommandResponse.SubmitCommandNavigationSuccess { d with success := b }
  | SubmitCommandResponse.SubmitCommandFailure d, b =>
    SubmitCommandResponse.SubmitCommandFailure { d with success := b }

theorem parseMessageDto_success (r : RawResponse) (b1 b2 : Bool) :
    parseMessageDto { r with success := some b1 } =
      (parseMessageDto { r with success := some b2 }).map
        (fun d => { d with success := b1 }) := by
  rcases r with ⟨su, ty, pm, sc, st, ia, ir, ms⟩
  cases ty <;> cases pm <;> cases st <;> cases ia <;> cases ir <;> rfl

theorem parseNavigationDto_success (r : RawResponse) (b1 b2 : Bool) :
    parseNavigationDto { r with success := some b1 } =
      (parseNavigationDto { r with success := some b2 }).map
        (fun d => { d with success := b1 }) := by
  rcases r with ⟨su, ty, pm, sc, st, ia, ir, ms⟩
  cases ty <;> cases sc <;> cases st <;> cases ia <;> cases ir <;> rfl

theorem parseFailureDto_success (r : RawResponse) (b1 b2 : Bool) :
    parseFailureDto { r with success := some b1 } =
      (parseFailureDto { r with success := some b2 }).map
        (fun d => { d with success := b1 }) := by
  rcases r with ⟨su, ty, pm, sc, st, ia, ir, ms⟩
  cases ms <;> rfl

/-- C10: the success flag is never inspected.  Applying a response
performs the same transition whatever its `success` value is, for all
three variants; and classification decides the variant independently
of the flag's value — flipping `success` in the raw response flips it
inside the classified outcome but never changes which (if any) variant
matches. -/
theorem c10_success_flag_ignored :
    (∀ (g : Game) (resp : SubmitCommandResponse) (b : Bool),
      applyResponse g (withSuccess resp b) = applyResponse g resp) ∧
    (∀ (r : RawResponse) (b1 b2 : Bool),
      classify { r with success := some b1 } =
        (classify { r with success := some b2 }).map (fun resp => withSuccess resp b1)) := by
  constructor
  · intro g resp b
    cases resp with
    | SubmitCommandPrintMessageSuccess d =>
      cases h : from_state_string d.state <;> simp [withSuccess, applyResponse, h]
    | SubmitCommandNavigationSuccess d =>
      cases h : from_state_string d.state <;> simp [withSuccess, applyResponse, h]
    | SubmitCommandFailure d => rfl
  · intro r b1 b2
    have hM := parseMessageDto_success r b1 b2
    have hN := parseNavigationDto_success r b1 b2
    have hF := parseFailureDto_success r b1 b2
    unfold classify
    rw [hM, hN, hF]
    cases hm : parseMessageDto { r with success := some b2 } with
    | some d => simp [withSuccess]
    | none =>
      cases hn : parseNavigationDto { r with success := some b2 } with
      | some d => simp [withSuccess]
      | none =>
        cases hf : parseFailureDto { r with success := some b2 } with
        | some d => simp [withSuccess]
        | none => simp

end TextAdventure
